import Mathlib

/-!
# CHIP8 executor: a shallow embedding of `chVmRun`

The definitions below follow `src/app/executor/src/main.c`.  Machine integers
are natural numbers, reduced modulo `2 ^ w` wherever the C code stores into a
`uintw_t` object.  Arrays are total functions on indices; every array access
the C code performs is also recorded in a trace, so that statements about
which cells are touched can be made without relying on what an index outside
the array would hold.  Terminal output (`printf`, `putchar`, `puts`) is not
modelled.
-/

namespace CHIP8

/-! ## Data model -/

/-- CHIP8 instruction: the `uint16_t instruction` member of the union. -/
structure ChInstruction where
  instruction : Nat
  deriving DecidableEq, Repr

namespace ChInstruction

/-- Bit field `n`, bits `[0:4]` of the instruction word. -/
def n (w : ChInstruction) : Nat := w.instruction % 16

/-- Bit field `y`, bits `[4:8]` of the instruction word. -/
def y (w : ChInstruction) : Nat := w.instruction / 16 % 16

/-- Member `nn`, bits `[0:8]` of the instruction word. -/
def nn (w : ChInstruction) : Nat := w.instruction % 256

/-- Bit field `x`, bits `[8:12]` of the instruction word. -/
def x (w : ChInstruction) : Nat := w.instruction / 256 % 16

/-- Bit field `opcode`, bits `[12:16]` of the instruction word. -/
def opcode (w : ChInstruction) : Nat := w.instruction / 4096 % 16

/-- Bit field `nnn`, bits `[0:12]` of the instruction word. -/
def nnn (w : ChInstruction) : Nat := w.instruction % 4096

end ChInstruction

/-- CHIP8 vm register storage (`v` has 16 cells of 8 bits). -/
structure ChRegisters where
  v : Nat → Nat
  i : Nat
  pc : Nat
  dt : Nat
  st : Nat
  sp : Nat

/-- CHIP8 memory: `uint8_t bytes[4096]`. -/
structure ChMemory where
  bytes : Nat → Nat

/-- CHIP8 stack: `uint16_t stack[16]`. -/
structure ChStack where
  stack : Nat → Nat

/-- CHIP8 video memory: `uint64_t rows[32]`. -/
structure ChVideoMemory where
  rows : Nat → Nat

/-- CHIP8 virtual machine state. -/
structure ChVm where
  registers : ChRegisters
  stack : ChStack
  videoMemory : ChVideoMemory
  memory : ChMemory

/-- One array access made by the loop body: a cell of `memory.bytes`, of
`stack.stack` or of `videoMemory.rows`, each with the index used. -/
inductive Access where
  | mem (index : Nat)
  | stack (index : Nat)
  | row (index : Nat)
  deriving DecidableEq, Repr

/-- The places where the loop of `chVmRun` is left: the `break` of the fetch
bound check and each `goto chVmRun__end`. -/
inductive ChHalt where
  | fetchBound
  | stackUnderflow
  | stackOverflow
  | invalidSE
  | unknownRR
  | invalidSNE
  | notHexDigit
  | bcdBound
  | storeBound
  | loadBound
  deriving DecidableEq, Repr

/-- Outcome of one iteration of the loop: the machine state afterwards,
whether the loop was left (and where), and the array accesses made. -/
structure ChStep where
  vm : ChVm
  halt : Option ChHalt
  trace : List Access

/-- Array store `a[k] = val`. -/
def store (a : Nat → Nat) (k val : Nat) : Nat → Nat :=
  fun j => if j = k then val else a j

/-- Conversion of a C `int` value to `uint8_t`. -/
def toU8 (z : Int) : Nat := (z % 256).toNat

namespace ChVm

/-- Assignment to `vm->registers.pc`. -/
def setPc (vm : ChVm) (pc : Nat) : ChVm :=
  { vm with registers := { vm.registers with pc := pc } }

/-- Assignment to `vm->registers.i`. -/
def setI (vm : ChVm) (i : Nat) : ChVm :=
  { vm with registers := { vm.registers with i := i } }

/-- Assignment to `vm->registers.sp`. -/
def setSp (vm : ChVm) (sp : Nat) : ChVm :=
  { vm with registers := { vm.registers with sp := sp } }

/-- Assignment to `vm->registers.dt`. -/
def setDt (vm : ChVm) (dt : Nat) : ChVm :=
  { vm with registers := { vm.registers with dt := dt } }

/-- Assignment to `vm->registers.st`. -/
def setSt (vm : ChVm) (st : Nat) : ChVm :=
  { vm with registers := { vm.registers with st := st } }

/-- Assignment to `vm->registers.v[k]`. -/
def setV (vm : ChVm) (k val : Nat) : ChVm :=
  { vm with registers := { vm.registers with v := store vm.registers.v k val } }

/-- Assignment to `vm->stack.stack[k]`. -/
def setStack (vm : ChVm) (k val : Nat) : ChVm :=
  { vm with stack := { stack := store vm.stack.stack k val } }

/-- Assignment to `vm->memory.bytes[k]`. -/
def setByte (vm : ChVm) (k val : Nat) : ChVm :=
  { vm with memory := { bytes := store vm.memory.bytes k val } }

/-- Assignment to `vm->videoMemory.rows[k]`. -/
def setRow (vm : ChVm) (k val : Nat) : ChVm :=
  { vm with videoMemory := { rows := store vm.videoMemory.rows k val } }

end ChVm

/-- The loop goes on with state `vm`. -/
def continueWith (vm : ChVm) (trace : List Access) : ChStep :=
  { vm := vm, halt := none, trace := trace }

/-- The loop is left at `h` with state `vm`. -/
def haltWith (vm : ChVm) (h : ChHalt) (trace : List Access) : ChStep :=
  { vm := vm, halt := some h, trace := trace }

/-! ## The loop body of `chVmRun` -/

/-- Fetch: `*(uint16_t *)(vm->memory.bytes + vm->registers.pc)` followed by the
byte reorder `0 | (w << 8) | (w >> 8)` stored back into the `uint16_t`
member.  The 16-bit load is the one of a little-endian host (the byte at
`pc` is the low byte of the loaded value), the host for which the source
reorders the bytes. -/
def fetch (vm : ChVm) : ChInstruction :=
  let raw := vm.memory.bytes vm.registers.pc + 256 * vm.memory.bytes (vm.registers.pc + 1)
  { instruction := (0 ||| (raw <<< 8) ||| (raw >>> 8)) % 65536 }

/-- `memcpy(dst + dstOff, src + srcOff, count)` between two distinct arrays. -/
def memcpy (dst : Nat → Nat) (dstOff : Nat) (src : Nat → Nat) (srcOff : Nat) : Nat → Nat → Nat
  | 0 => dst
  | count + 1 =>
    store (memcpy dst dstOff src srcOff count) (dstOff + count) (src (srcOff + count))

/-- The indices `off, off + 1, ..., off + count - 1` of a block of memory bytes. -/
def memBlock (off count : Nat) : List Access :=
  (List.range count).map (fun k => Access.mem (off + k))

/-- `case CH_OPCODE_SYS`: CLS (`nnn = 0x0E0`), RET (`nnn = 0x0EE`); any other
`nnn` matches no case of the inner switch. -/
def execSys (instruction : ChInstruction) (vm : ChVm) : ChStep :=
  if instruction.nnn = 0x0E0 then
    continueWith
      { vm with videoMemory :=
          { rows := (List.range 32).foldl (fun rows y => store rows y 0) vm.videoMemory.rows } }
      ((List.range 32).map Access.row)
  else if instruction.nnn = 0x0EE then
    if vm.registers.sp = 0 then
      haltWith vm ChHalt.stackUnderflow []
    else
      let sp := vm.registers.sp - 1
      continueWith ((vm.setSp sp).setPc (vm.stack.stack sp)) [Access.stack sp]
  else
    continueWith vm []

/-- `case CH_OPCODE_CALL`: `stack[sp++] = pc`, nothing else. -/
def execCall (_instruction : ChInstruction) (vm : ChVm) : ChStep :=
  if vm.registers.sp ≥ 16 then
    haltWith vm ChHalt.stackOverflow []
  else
    continueWith
      ((vm.setStack vm.registers.sp vm.registers.pc).setSp ((vm.registers.sp + 1) % 65536))
      [Access.stack vm.registers.sp]

/-- `case CH_OPCODE_RR`: `x` points to `v[instruction.x]` (read again at each
use of `*x`), `y` is a copy of `v[instruction.y]` taken on entry. -/
def execRr (instruction : ChInstruction) (vm : ChVm) : ChStep :=
  let x := instruction.x
  let y := vm.registers.v instruction.y
  match instruction.n with
  | 0x0 => continueWith (vm.setV x y) []
  | 0x1 => continueWith (vm.setV x ((vm.registers.v x ||| y) % 256)) []
  | 0x2 => continueWith (vm.setV x ((vm.registers.v x &&& y) % 256)) []
  | 0x3 => continueWith (vm.setV x ((vm.registers.v x ^^^ y) % 256)) []
  | 0x4 =>
    let res := (vm.registers.v x + y) % 65536
    let vm1 := vm.setV 15 ((res >>> 8) % 256)
    continueWith (vm1.setV x (res % 256)) []
  | 0x5 =>
    let vm1 := vm.setV 15 (if vm.registers.v x > y then 1 else 0)
    continueWith (vm1.setV x (toU8 ((vm1.registers.v x : Int) - (y : Int)))) []
  | 0x6 =>
    let vm1 := vm.setV 15 ((vm.registers.v x &&& 1) % 256)
    continueWith (vm1.setV x ((vm1.registers.v x >>> 1) % 256)) []
  | 0x7 =>
    let vm1 := vm.setV 15 (if y > vm.registers.v x then 1 else 0)
    continueWith (vm1.setV x (toU8 ((y : Int) - (vm1.registers.v x : Int)))) []
  | 0xE =>
    let vm1 := vm.setV 15 ((vm.registers.v x >>> 7) % 256)
    continueWith (vm1.setV x ((vm1.registers.v x <<< 1) % 256)) []
  | _ => haltWith vm ChHalt.unknownRR []

/-- The shift `(uint64_t)cbyte << vx`.  For `vx < 64` it is the shifted value
reduced modulo `2 ^ 64`.  For `vx ≥ 64` C gives the shift no value; the value
taken here is the one of the 64-bit shift instruction of the little-endian
hosts the source runs on (x86-64, AArch64), which use the count modulo 64. -/
def shl64 (cbyte vx : Nat) : Nat := (cbyte <<< (vx % 64)) % 2 ^ 64

/-- The first loop of `case CH_OPCODE_DRW`, started at `row` with `count`
iterations left before `row < instruction.n` fails. -/
def drwLoop (vx vy i : Nat) (bytes : Nat → Nat) :
    Nat → Nat → (Nat → Nat) → (Nat → Nat) × List Access
  | 0, _, rows => (rows, [])
  | count + 1, row, rows =>
    if vy + row ≥ 32 then (rows, [])
    else
      let cbyte := bytes (i + row)
      let rows1 := store rows (vy + row) ((rows (vy + row)) ^^^ shl64 cbyte vx)
      let rest := drwLoop vx vy i bytes count (row + 1) rows1
      (rest.1, Access.mem (i + row) :: Access.row (vy + row) :: rest.2)

/-- The second loop of `case CH_OPCODE_DRW` (redraw of the region): it only
reads `rows[vy + row]`. -/
def drwRedraw (vy : Nat) : Nat → Nat → List Access
  | 0, _ => []
  | count + 1, row =>
    if vy + row ≥ 32 then []
    else Access.row (vy + row) :: drwRedraw vy count (row + 1)

/-- `case CH_OPCODE_DRW`. -/
def execDrw (instruction : ChInstruction) (vm : ChVm) : ChStep :=
  let vx := vm.registers.v instruction.x
  let vy := vm.registers.v instruction.y
  let i := vm.registers.i
  let drawn := drwLoop vx vy i vm.memory.bytes instruction.n 0 vm.videoMemory.rows
  continueWith { vm with videoMemory := { rows := drawn.1 } }
    (drawn.2 ++ drwRedraw vy instruction.n 0)

/-- `case CH_OPCODE_SPEC`.  The `default` branch prints a message and falls
out of the switch. -/
def execSpec (instruction : ChInstruction) (vm : ChVm) : ChStep :=
  let x := instruction.x
  match instruction.nn with
  | 0x06 => continueWith (vm.setV x vm.registers.dt) []
  | 0x0A => continueWith vm []
  | 0x15 => continueWith (vm.setDt (vm.registers.v x)) []
  | 0x18 => continueWith (vm.setSt (vm.registers.v x)) []
  | 0x1E => continueWith (vm.setI ((vm.registers.i + vm.registers.v x) % 65536)) []
  | 0x29 =>
    if vm.registers.v x ≥ 16 then haltWith vm ChHalt.notHexDigit []
    else continueWith (vm.setI ((vm.registers.v x * 5) % 65536)) []
  | 0x33 =>
    if vm.registers.i + 2 ≥ 0xFFF then haltWith vm ChHalt.bcdBound []
    else
      let i := vm.registers.i
      let d := vm.registers.v x
      continueWith
        (((vm.setByte i ((d / 100) % 10)).setByte (i + 1) ((d / 10) % 10)).setByte
          (i + 2) ((d / 1) % 10))
        [Access.mem i, Access.mem (i + 1), Access.mem (i + 2)]
  | 0x55 =>
    if vm.registers.i + x ≥ 0xFFF then haltWith vm ChHalt.storeBound []
    else
      continueWith
        { vm with memory :=
            { bytes := memcpy vm.memory.bytes vm.registers.i vm.registers.v 0 instruction.n } }
        (memBlock vm.registers.i instruction.n)
  | 0x65 =>
    if vm.registers.i + x ≥ 0xFFF then haltWith vm ChHalt.loadBound []
    else
      continueWith
        { vm with registers :=
            { vm.registers with
                v := memcpy vm.registers.v 0 vm.memory.bytes vm.registers.i x } }
        (memBlock vm.registers.i x)
  | _ => continueWith vm []

/-- The `switch (instruction.opcode)` of the loop body, entered after `pc`
has been advanced.  The source lists the sixteen opcodes; the last
alternative here is never taken, `opcode` being below 16. -/
def execute (instruction : ChInstruction) (vm : ChVm) : ChStep :=
  let x := instruction.x
  let y := instruction.y
  match instruction.opcode with
  | 0x0 => execSys instruction vm
  | 0x1 => continueWith (vm.setPc instruction.nnn) []
  | 0x2 => execCall instruction vm
  | 0x3 =>
    if vm.registers.v x = instruction.nn then
      continueWith (vm.setPc ((vm.registers.pc + 2) % 65536)) []
    else continueWith vm []
  | 0x4 =>
    if vm.registers.v x ≠ instruction.nn then
      continueWith (vm.setPc ((vm.registers.pc + 2) % 65536)) []
    else continueWith vm []
  | 0x5 =>
    if instruction.n ≠ 0 then haltWith vm ChHalt.invalidSE []
    else if vm.registers.v x = vm.registers.v y then
      continueWith (vm.setPc ((vm.registers.pc + 2) % 65536)) []
    else continueWith vm []
  | 0x6 => continueWith (vm.setV x instruction.nn) []
  | 0x7 => continueWith (vm.setV x ((vm.registers.v x + instruction.nn) % 256)) []
  | 0x8 => execRr instruction vm
  | 0x9 =>
    if instruction.n ≠ 0 then haltWith vm ChHalt.invalidSNE []
    else if vm.registers.v x ≠ vm.registers.v y then
      continueWith (vm.setPc ((vm.registers.pc + 2) % 65536)) []
    else continueWith vm []
  | 0xA => continueWith (vm.setI instruction.nnn) []
  | 0xB => continueWith (vm.setPc ((vm.registers.v 0 + instruction.nnn) % 65536)) []
  | 0xC => continueWith vm []
  | 0xD => execDrw instruction vm
  | 0xE => continueWith vm []
  | 0xF => execSpec instruction vm
  | _ => continueWith vm []

/-- One iteration of the `while (true)` loop of `chVmRun`. -/
def chVmStep (vm : ChVm) : ChStep :=
  if vm.registers.pc + 2 ≥ 0xFFF then
    haltWith vm ChHalt.fetchBound []
  else
    let instruction := fetch vm
    let r := execute instruction (vm.setPc ((vm.registers.pc + 2) % 65536))
    { r with trace := Access.mem vm.registers.pc :: Access.mem (vm.registers.pc + 1) :: r.trace }

/-- The loop of `chVmRun`, cut off after `fuel` iterations: the result has
`halt = none` when the loop is still running at that point. -/
def chVmRun : Nat → ChVm → ChStep
  | 0, vm => continueWith vm []
  | fuel + 1, vm =>
    let r := chVmStep vm
    match r.halt with
    | some _ => r
    | none =>
      let rest := chVmRun fuel r.vm
      { rest with trace := r.trace ++ rest.trace }

/-! ## Startup state of `main` -/

/-- The digit sprites copied to `memory.bytes[0 .. 80)`. -/
def font : List Nat :=
  [0xF0, 0x90, 0x90, 0x90, 0xF0,
   0x20, 0x60, 0x20, 0x20, 0x70,
   0xF0, 0x10, 0xF0, 0x80, 0xF0,
   0xF0, 0x10, 0xF0, 0x10, 0xF0,
   0x90, 0x90, 0xF0, 0x10, 0x10,
   0xF0, 0x80, 0xF0, 0x10, 0xF0,
   0xF0, 0x80, 0xF0, 0x90, 0xF0,
   0xF0, 0x10, 0x20, 0x40, 0x40,
   0xF0, 0x90, 0xF0, 0x90, 0xF0,
   0xF0, 0x90, 0xF0, 0x10, 0xF0,
   0xF0, 0x90, 0xF0, 0x90, 0x90,
   0xE0, 0x90, 0xE0, 0x90, 0xE0,
   0xF0, 0x80, 0x80, 0x80, 0xF0,
   0xE0, 0x90, 0x90, 0x90, 0xE0,
   0xF0, 0x80, 0xF0, 0x80, 0xF0,
   0xF0, 0x80, 0xF0, 0x80, 0x80]

/-- The state built by `main` for a program image: everything zero, then
`font` copied to offset 0, then the image copied to offset `0x200` (the
second `memcpy` overwrites nothing of the first, the font ending at 80), and
`pc = 0x200`. -/
def startVm (program : List Nat) : ChVm :=
  { registers := { v := fun _ => 0, i := 0, pc := 0x200, dt := 0, st := 0, sp := 0 }
    stack := { stack := fun _ => 0 }
    videoMemory := { rows := fun _ => 0 }
    memory :=
      { bytes := fun a =>
          if 0x200 ≤ a ∧ a < 0x200 + program.length then program.getD (a - 0x200) 0
          else font.getD a 0 } }

/-! ## Concrete machine states used below -/

/-- Startup state about to run `8F04` (ADD with `x = 15`, `y = 0`), with
`v[15] = 200` and `v[0] = 100`. -/
def vmAddVF : ChVm := ((startVm [0x8F, 0x04]).setV 15 200).setV 0 100

/-- Startup state about to run `8124` (ADD with `x = 1`, `y = 2`), with
`v[1] = 200` and `v[2] = 100`. -/
def vmAdd12 : ChVm := ((startVm [0x81, 0x24]).setV 1 200).setV 2 100

/-- Startup state about to run `2300` (CALL `0x300`). -/
def vmCall : ChVm := startVm [0x23, 0x00]

/-- Startup state with `2300` (CALL) at `0x200` and `00EE` (RET) at `0x202`. -/
def vmCallRet : ChVm := startVm [0x23, 0x00, 0x00, 0xEE]

/-- Startup state whose program is seventeen times `2300` (CALL). -/
def vmCalls17 : ChVm :=
  startVm ((List.range 34).map (fun k => if k % 2 = 0 then 0x23 else 0x00))

/-- Startup state about to run `00EE` (RET) on the empty stack. -/
def vmRetEmpty : ChVm := startVm [0x00, 0xEE]

/-- State about to run `00EE` (RET) with one return address, `0x300`, on the
stack. -/
def vmRetOne : ChVm := ((startVm [0x00, 0xEE]).setStack 0 0x300).setSp 1

/-- Startup state with the program `AFFF D001`: load `i = 0xFFF`, then draw
one sprite row at `(v[0], v[0])`. -/
def vmDrwAtBound : ChVm := startVm [0xAF, 0xFF, 0xD0, 0x01]

/-- Startup state with the program `6001 AFFF F01E D121`: `v[0] = 1`,
`i = 0xFFF`, `i += v[0]`, then draw one sprite row at `(v[1], v[2])`. -/
def vmDrwBeyond : ChVm := startVm [0x60, 0x01, 0xAF, 0xFF, 0xF0, 0x1E, 0xD1, 0x21]

/-- Startup state with the program `AFFE F055`: load `i = 0xFFE`, then
register block store with `x = 0`. -/
def vmStoreBeyond : ChVm := startVm [0xAF, 0xFE, 0xF0, 0x55]

/-- Startup state with the program `1FFD`: jump to `0xFFD`. -/
def vmJumpFFD : ChVm := startVm [0x1F, 0xFD]

/-- Startup state whose first instruction bytes are `D1 2F`. -/
def vmWordD12F : ChVm := startVm [0xD1, 0x2F]

/-- Startup state with the program `6107 A300 F055`: `v[1] = 7`, `i = 0x300`,
then register block store with `x = 0`. -/
def vmStoreX0 : ChVm := startVm [0x61, 0x07, 0xA3, 0x00, 0xF0, 0x55]

/-- Startup state with the program `6507 A300 F555`: `v[5] = 7`, `i = 0x300`,
then register block store with `x = 5`. -/
def vmStoreX5 : ChVm := startVm [0x65, 0x07, 0xA3, 0x00, 0xF5, 0x55]

/-- Startup state with the program `F165`: register block load with `x = 1`
from `i = 0`, where the font holds `0xF0, 0x90`. -/
def vmLoadX1 : ChVm := startVm [0xF1, 0x65]

/-- Startup state with the program `6007 A300 F055 6000 F065`: `v[0] = 7`,
`i = 0x300`, block store with `x = 0`, `v[0] = 0`, block load with `x = 0`. -/
def vmStoreLoadX0 : ChVm :=
  startVm [0x60, 0x07, 0xA3, 0x00, 0xF0, 0x55, 0x60, 0x00, 0xF0, 0x65]

/-- Startup state with the program `6307 A300 F355 6300 F365`: `v[3] = 7`,
`i = 0x300`, block store with `x = 3`, `v[3] = 0`, block load with `x = 3`. -/
def vmStoreLoadX3 : ChVm :=
  startVm [0x63, 0x07, 0xA3, 0x00, 0xF3, 0x55, 0x63, 0x00, 0xF3, 0x65]

/-- State about to run `F033` (BCD store of `v[0]`), with `v[0] = 157` and
`i = 0x300`. -/
def vmBcd157 : ChVm := ((startVm [0xF0, 0x33]).setV 0 157).setI 0x300

/-- State about to run `F033` (BCD store of `v[0]`), with `i = 0xFFD`. -/
def vmBcdAtBound : ChVm := ((startVm [0xF0, 0x33]).setV 0 157).setI 0xFFD

/-- Startup state about to run `D005`: draw 5 sprite rows from `i = 0` at
`(v[0], v[0]) = (0, 0)`. -/
def vmDrawZero : ChVm := startVm [0xD0, 0x05]

/-- State about to run `D015` (draw 5 sprite rows at `(v[0], v[1])`) with
`v[0] = 60` and `v[1] = 30`. -/
def vmDrawClip : ChVm := ((startVm [0xD0, 0x15]).setV 0 60).setV 1 30

/-- Startup state with the program `6040 D011`: `v[0] = 64`, then draw one
sprite row from `i = 0` at `(v[0], v[1]) = (64, 0)`. -/
def vmDrawWide : ChVm := startVm [0x60, 0x40, 0xD0, 0x11]

/-- State about to run `D015` (draw 5 sprite rows at `(v[0], v[1])`) with
`v[0] = 4` and `v[1] = 30`: the sprite bytes `0xF0`, `0x90` land in rows 30
and 31 as `0xF00`, `0x900`. -/
def vmDrawShift4 : ChVm := ((startVm [0xD0, 0x15]).setV 0 4).setV 1 30

/-- State with the program `D015 D015` (the same draw twice), `v[0] = 60`,
`v[1] = 30`, and rows 30 and 31 already holding pixels. -/
def vmDrawTwice : ChVm :=
  (((((startVm [0xD0, 0x15, 0xD0, 0x15]).setV 0 60).setV 1 30).setV 15 9).setRow 30
    0xFFFF).setRow 31 (2 ^ 64 - 1)

/-- Startup state with the program `F0FF 6005`: opcode `0xF` with the
undefined sub-code `0xFF`, then `v[0] = 5`. -/
def vmSpecUnknown : ChVm := startVm [0xF0, 0xFF, 0x60, 0x05]

/-- Startup state with the program `E0FF 6005`: opcode `0xE` with the
sub-code `0xFF`, then `v[0] = 5`. -/
def vmKeyUnknown : ChVm := startVm [0xE0, 0xFF, 0x60, 0x05]

/-! ## Basic facts about the loop body -/

/-- When the fetch bound check passes, an iteration executes the fetched
instruction on the state with `pc` advanced by 2. -/
theorem chVmStep_of_fetch (vm : ChVm) (hpc : vm.registers.pc + 2 < 0xFFF) :
    chVmStep vm =
      { execute (fetch vm) (vm.setPc (vm.registers.pc + 2)) with
        trace := Access.mem vm.registers.pc :: Access.mem (vm.registers.pc + 1) ::
          (execute (fetch vm) (vm.setPc (vm.registers.pc + 2))).trace } := by
  have h1 : ¬ (vm.registers.pc + 2 ≥ 0xFFF) := by omega
  have h2 : (vm.registers.pc + 2) % 65536 = vm.registers.pc + 2 := by omega
  simp only [chVmStep, h1, if_false, h2]

/-- The fields of the instruction word built from four nibbles. -/
theorem fields_of_nibbles (op x y n : Nat) (hop : op < 16) (hx : x < 16) (hy : y < 16)
    (hn : n < 16) :
    ChInstruction.opcode { instruction := 4096 * op + 256 * x + 16 * y + n } = op ∧
    ChInstruction.x { instruction := 4096 * op + 256 * x + 16 * y + n } = x ∧
    ChInstruction.y { instruction := 4096 * op + 256 * x + 16 * y + n } = y ∧
    ChInstruction.n { instruction := 4096 * op + 256 * x + 16 * y + n } = n := by
  simp only [ChInstruction.opcode, ChInstruction.x, ChInstruction.y, ChInstruction.n]
  omega

/-- An iteration that halts ends the run. -/
theorem chVmRun_halted (fuel : Nat) (vm : ChVm) (h : ChHalt)
    (hh : (chVmStep vm).halt = some h) : chVmRun (fuel + 1) vm = chVmStep vm := by
  simp only [chVmRun, hh]

/-- An iteration that does not halt is followed by the rest of the run. -/
theorem chVmRun_running (fuel : Nat) (vm : ChVm) (hh : (chVmStep vm).halt = none) :
    chVmRun (fuel + 1) vm =
      { chVmRun fuel (chVmStep vm).vm with
        trace := (chVmStep vm).trace ++ (chVmRun fuel (chVmStep vm).vm).trace } := by
  simp only [chVmRun, hh]

/-- A run still going after `k` iterations is extended by one iteration on
the state reached. -/
theorem chVmRun_succ (k : Nat) : ∀ vm : ChVm, (chVmRun k vm).halt = none →
    (chVmRun (k + 1) vm).vm = (chVmStep (chVmRun k vm).vm).vm ∧
    (chVmRun (k + 1) vm).halt = (chVmStep (chVmRun k vm).vm).halt ∧
    (chVmRun (k + 1) vm).trace =
      (chVmRun k vm).trace ++ (chVmStep (chVmRun k vm).vm).trace := by
  induction k with
  | zero =>
    intro vm _
    cases hh : (chVmStep vm).halt with
    | some h =>
      rw [chVmRun_halted 0 vm h hh]
      simp [chVmRun, continueWith]
    | none =>
      rw [chVmRun_running 0 vm hh]
      simp [chVmRun, continueWith, hh]
  | succ k ih =>
    intro vm hrun
    cases hh : (chVmStep vm).halt with
    | some h =>
      rw [chVmRun_halted k vm h hh, hh] at hrun
      cases hrun
    | none =>
      rw [chVmRun_running k vm hh] at hrun
      obtain ⟨h1, h2, h3⟩ := ih (chVmStep vm).vm hrun
      rw [chVmRun_running (k + 1) vm hh, chVmRun_running k vm hh]
      simp only [h1, h2, h3, List.append_assoc, and_self]

/-- The fetched word depends on `pc` and on memory only. -/
theorem fetch_congr (vm1 vm2 : ChVm) (hpc : vm1.registers.pc = vm2.registers.pc)
    (hmem : vm1.memory = vm2.memory) : fetch vm1 = fetch vm2 := by
  simp only [fetch, hpc, hmem]

/-- CALL below the stack limit: the iteration stores the advanced `pc` in
slot `sp` and increments `sp`. -/
theorem call_step (vm : ChVm) (hpc : vm.registers.pc + 2 < 0xFFF)
    (hop : (fetch vm).opcode = 2) (hsp : vm.registers.sp < 16) :
    chVmStep vm =
      { vm := ((vm.setPc (vm.registers.pc + 2)).setStack vm.registers.sp
                (vm.registers.pc + 2)).setSp (vm.registers.sp + 1),
        halt := none,
        trace := [Access.mem vm.registers.pc, Access.mem (vm.registers.pc + 1),
          Access.stack vm.registers.sp] } := by
  have hnsp : ¬ (vm.registers.sp ≥ 16) := by omega
  have hmod : (vm.registers.sp + 1) % 65536 = vm.registers.sp + 1 := by omega
  rw [chVmStep_of_fetch vm hpc]
  simp only [execute, hop, execCall, continueWith, ChVm.setPc, ChVm.setStack, ChVm.setSp,
    hnsp, if_false, hmod]

/-- CALL at the stack limit: the iteration halts after the fetch, with only
`pc` advanced. -/
theorem call_step_overflow (vm : ChVm) (hpc : vm.registers.pc + 2 < 0xFFF)
    (hop : (fetch vm).opcode = 2) (hsp : 16 ≤ vm.registers.sp) :
    chVmStep vm =
      { vm := vm.setPc (vm.registers.pc + 2),
        halt := some ChHalt.stackOverflow,
        trace := [Access.mem vm.registers.pc, Access.mem (vm.registers.pc + 1)] } := by
  have hnsp : vm.registers.sp ≥ 16 := hsp
  rw [chVmStep_of_fetch vm hpc]
  simp only [execute, hop, execCall, haltWith, ChVm.setPc, hnsp, if_true]

/-- From an empty stack, `k ≤ 16` CALLs in a row run without halting and
fill slots `0 .. k - 1` with the successive return addresses. -/
theorem calls_run (vm : ChVm) (hsp : vm.registers.sp = 0) (m : Nat) (hm : m ≤ 16)
    (hpc : vm.registers.pc + 2 * m < 0xFFF)
    (hcalls : ∀ j, j < m → (fetch (vm.setPc (vm.registers.pc + 2 * j))).opcode = 2) :
    ∀ k, k ≤ m →
      (chVmRun k vm).halt = none ∧
      (chVmRun k vm).vm.registers.sp = k ∧
      (chVmRun k vm).vm.registers.pc = vm.registers.pc + 2 * k ∧
      (chVmRun k vm).vm.memory = vm.memory ∧
      (∀ j, j < k → (chVmRun k vm).vm.stack.stack j = vm.registers.pc + 2 * (j + 1)) := by
  intro k
  induction k with
  | zero =>
    intro _
    simp [chVmRun, continueWith, hsp]
  | succ k ih =>
    intro hk
    obtain ⟨hh, hs, hp, hmem, hst⟩ := ih (by omega)
    obtain ⟨e1, e2, _⟩ := chVmRun_succ k vm hh
    have hfetch : fetch (chVmRun k vm).vm = fetch (vm.setPc (vm.registers.pc + 2 * k)) :=
      fetch_congr _ _ (by simp [ChVm.setPc, hp]) (by simp [ChVm.setPc, hmem])
    have hop : (fetch (chVmRun k vm).vm).opcode = 2 := by
      rw [hfetch]; exact hcalls k (by omega)
    have hstep := call_step (chVmRun k vm).vm (by omega) hop (by omega)
    rw [e1, e2, hstep]
    simp only [ChVm.setPc, ChVm.setStack, ChVm.setSp, store, hs, hp, hmem, true_and]
    refine ⟨by omega, ?_⟩
    intro j hj
    by_cases hjk : j = k
    · simp [hjk]; omega
    · simp only [hjk, if_false]
      exact hst j (by omega)

/-! ## Register-register arithmetic -/

/-- C1 (as stated, refuted): with `x = 15` the ADD `8F04` on `v[15] = 200`,
`v[0] = 100` leaves `v[15] = 44`, the low byte of the sum, not the carry 1. -/
theorem rr_add_flag_overwritten :
    vmAddVF.registers.pc + 2 < 0xFFF ∧ fetch vmAddVF = { instruction := 0x8F04 } ∧
    vmAddVF.registers.v 15 = 200 ∧ vmAddVF.registers.v 0 = 100 ∧
    (chVmStep vmAddVF).vm.registers.v 15 = 44 ∧
    ¬ ((chVmStep vmAddVF).vm.registers.v 15 = if 200 + 100 > 255 then 1 else 0) := by
  decide

/-- C1 (amended): for all register indices `x`, `y` below 16 and every state
about to run `8xy4`, the iteration does not halt and leaves
`v[x] = (a + b) mod 256`; when `x` is not 15 it leaves `v[15] = 1` if
`a + b > 255` and `0` otherwise (`a`, `b` the old `v[x]`, `v[y]`). -/
theorem rr_add_carry_result (vm : ChVm) (x y : Nat) (hx : x < 16) (hy : y < 16)
    (hpc : vm.registers.pc + 2 < 0xFFF)
    (hw : fetch vm = { instruction := 0x8004 + 256 * x + 16 * y })
    (ha : vm.registers.v x < 256) (hb : vm.registers.v y < 256) :
    (chVmStep vm).halt = none ∧
    (chVmStep vm).vm.registers.v x = (vm.registers.v x + vm.registers.v y) % 256 ∧
    (x ≠ 15 → (chVmStep vm).vm.registers.v 15 =
      if vm.registers.v x + vm.registers.v y > 255 then 1 else 0) := by
  have hshape : 0x8004 + 256 * x + 16 * y = 4096 * 8 + 256 * x + 16 * y + 4 := by omega
  obtain ⟨hop, hxx, hyy, hn⟩ := fields_of_nibbles 8 x y 4 (by omega) hx hy (by omega)
  rw [chVmStep_of_fetch vm hpc, hw, hshape]
  simp only [execute, hop, execRr, hn, hxx, hyy, continueWith, ChVm.setV, ChVm.setPc, store]
  simp only [true_and, if_true]
  refine ⟨by omega, fun hne => ?_⟩
  rw [if_neg (Ne.symm hne), Nat.shiftRight_eq_div_pow]
  split <;> omega

/-- C1 witness: `8124` on `v[1] = 200`, `v[2] = 100`. -/
theorem rr_add_carry_result_witness :
    (chVmStep vmAdd12).halt = none ∧
    (chVmStep vmAdd12).vm.registers.v 1 =
      (vmAdd12.registers.v 1 + vmAdd12.registers.v 2) % 256 ∧
    ((1 : Nat) ≠ 15 → (chVmStep vmAdd12).vm.registers.v 15 =
      if vmAdd12.registers.v 1 + vmAdd12.registers.v 2 > 255 then 1 else 0) :=
  rr_add_carry_result vmAdd12 1 2 (by decide) (by decide) (by decide) (by decide)
    (by decide) (by decide)

/-- C4 (code evaluated at the failing input): in the startup state running
`2300` (CALL `0x300`) the iteration pushes `0x202` into slot 0 and sets
`sp = 1`, but leaves `pc = 0x202`, not `0x300`; the next word fetched is the
one at `0x202`. -/
theorem call_leaves_pc :
    fetch vmCall = { instruction := 0x2300 } ∧ vmCall.registers.sp = 0 ∧
    (chVmStep vmCall).halt = none ∧
    (chVmStep vmCall).vm.stack.stack 0 = 0x202 ∧
    (chVmStep vmCall).vm.registers.sp = 1 ∧
    (chVmStep vmCall).vm.registers.pc = 0x202 ∧
    (chVmStep vmCall).vm.registers.pc ≠ 0x300 ∧
    (chVmStep (chVmStep vmCall).vm).trace.take 2 = [Access.mem 0x202, Access.mem 0x203] := by
  decide

/-- C5: for every state with `sp < 16` about to run a CALL `2nnn` that is
followed in execution by the RET `00EE`, neither iteration halts, and after
the RET `pc` is the value it had when the CALL was executed (the fetch
address of the CALL plus 2), which is the return address the CALL stored in
slot `sp`, and `sp` is back at its old value. -/
theorem call_then_ret_restores (vm : ChVm) (nnn : Nat) (hnnn : nnn < 4096)
    (hpc : vm.registers.pc + 2 < 0xFFF)
    (hcall : fetch vm = { instruction := 0x2000 + nnn })
    (hsp : vm.registers.sp < 16)
    (hpc2 : (chVmStep vm).vm.registers.pc + 2 < 0xFFF)
    (hret : fetch (chVmStep vm).vm = { instruction := 0x00EE }) :
    (chVmStep vm).halt = none ∧
    (chVmStep (chVmStep vm).vm).halt = none ∧
    (chVmStep vm).vm.stack.stack vm.registers.sp = vm.registers.pc + 2 ∧
    (chVmStep (chVmStep vm).vm).vm.registers.pc = vm.registers.pc + 2 ∧
    (chVmStep (chVmStep vm).vm).vm.registers.sp = vm.registers.sp := by
  have hop : ChInstruction.opcode { instruction := 0x2000 + nnn } = 2 := by
    simp only [ChInstruction.opcode]; omega
  have hnsp : ¬ (vm.registers.sp ≥ 16) := by omega
  have hstep : chVmStep vm =
      { vm := ((vm.setPc (vm.registers.pc + 2)).setStack vm.registers.sp
                (vm.registers.pc + 2)).setSp ((vm.registers.sp + 1) % 65536),
        halt := none,
        trace := [Access.mem vm.registers.pc, Access.mem (vm.registers.pc + 1),
          Access.stack vm.registers.sp] } := by
    rw [chVmStep_of_fetch vm hpc, hcall]
    simp only [execute, hop, execCall, continueWith, ChVm.setPc, ChVm.setStack, ChVm.setSp,
      hnsp, if_false]
  have hmod : (vm.registers.sp + 1) % 65536 = vm.registers.sp + 1 := by omega
  rw [chVmStep_of_fetch _ hpc2, hret]
  rw [hstep]
  have hop0 : ChInstruction.opcode { instruction := 0x00EE } = 0 := by decide
  have hnnn0 : ChInstruction.nnn { instruction := 0x00EE } = 0x0EE := by decide
  simp only [execute, hop0, execSys, hnnn0, continueWith, haltWith, ChVm.setPc, ChVm.setStack,
    ChVm.setSp, store, hmod]
  simp

/-- C5 witness: the startup state with CALL at `0x200` and RET at `0x202`. -/
theorem call_then_ret_restores_witness :
    (chVmStep vmCallRet).halt = none ∧
    (chVmStep (chVmStep vmCallRet).vm).halt = none ∧
    (chVmStep vmCallRet).vm.stack.stack vmCallRet.registers.sp =
      vmCallRet.registers.pc + 2 ∧
    (chVmStep (chVmStep vmCallRet).vm).vm.registers.pc = vmCallRet.registers.pc + 2 ∧
    (chVmStep (chVmStep vmCallRet).vm).vm.registers.sp = vmCallRet.registers.sp :=
  call_then_ret_restores vmCallRet 0x300 (by decide) (by decide) (by decide) (by decide)
    (by decide) (by decide)

/-- C7: for every state about to run RET (`00EE`): the iteration halts with
stack underflow exactly when `sp = 0`, and then the stack, `sp`, the general
registers, memory and the framebuffer are unchanged; when `sp > 0` it does
not halt, sets `pc = stack[sp - 1]` and `sp` to `sp - 1`. -/
theorem ret_underflow_or_pop (vm : ChVm) (hpc : vm.registers.pc + 2 < 0xFFF)
    (hret : fetch vm = { instruction := 0x00EE }) :
    ((chVmStep vm).halt = some ChHalt.stackUnderflow ↔ vm.registers.sp = 0) ∧
    (vm.registers.sp = 0 →
      (chVmStep vm).vm.stack = vm.stack ∧
      (chVmStep vm).vm.registers.sp = vm.registers.sp ∧
      (chVmStep vm).vm.registers.v = vm.registers.v ∧
      (chVmStep vm).vm.memory = vm.memory ∧
      (chVmStep vm).vm.videoMemory = vm.videoMemory) ∧
    (0 < vm.registers.sp →
      (chVmStep vm).halt = none ∧
      (chVmStep vm).vm.registers.pc = vm.stack.stack (vm.registers.sp - 1) ∧
      (chVmStep vm).vm.registers.sp = vm.registers.sp - 1 ∧
      (chVmStep vm).vm.stack = vm.stack) := by
  have hop0 : ChInstruction.opcode { instruction := 0x00EE } = 0 := by decide
  have hnnn0 : ChInstruction.nnn { instruction := 0x00EE } = 0x0EE := by decide
  rw [chVmStep_of_fetch vm hpc, hret]
  simp only [execute, hop0, execSys, hnnn0, continueWith, haltWith, ChVm.setPc, ChVm.setSp]
  by_cases h0 : vm.registers.sp = 0
  · simp [h0]
  · have hpos : 0 < vm.registers.sp := by omega
    simp [h0, hpos]

/-- C7 witness: RET on the empty stack halts, RET with one address on the
stack pops it. -/
theorem ret_underflow_or_pop_witness :
    (chVmStep vmRetEmpty).halt = some ChHalt.stackUnderflow ∧
    (chVmStep vmRetOne).vm.registers.pc = 0x300 ∧
    (chVmStep vmRetOne).vm.registers.sp = 0 :=
  ⟨(ret_underflow_or_pop vmRetEmpty (by decide) (by decide)).1.2 (by decide),
   ((ret_underflow_or_pop vmRetOne (by decide) (by decide)).2.2 (by decide)).2.1,
   ((ret_underflow_or_pop vmRetOne (by decide) (by decide)).2.2 (by decide)).2.2.1⟩

/-- C6: for every state about to run a CALL, the iteration halts with stack
overflow exactly when `sp ≥ 16`, and does not halt when `sp < 16`.  From an
empty stack with seventeen CALLs in a row ahead: the first sixteen
iterations do not halt and leave `sp = 16` with slot `j` holding the return
address pushed by CALL number `j` (the `pc` that CALL was fetched at, plus
2); the seventeenth halts with stack overflow, leaves the stack and `sp` as
they were and touches no stack slot. -/
theorem call_overflow_at_16 (vm : ChVm) (hpc : vm.registers.pc + 2 < 0xFFF)
    (hop : (fetch vm).opcode = 2) :
    ((chVmStep vm).halt = some ChHalt.stackOverflow ↔ 16 ≤ vm.registers.sp) ∧
    (vm.registers.sp < 16 → (chVmStep vm).halt = none) ∧
    (vm.registers.sp = 0 → vm.registers.pc + 34 < 0xFFF →
      (∀ j, j < 17 → (fetch (vm.setPc (vm.registers.pc + 2 * j))).opcode = 2) →
      (∀ k, k ≤ 16 → (chVmRun k vm).halt = none) ∧
      (chVmRun 16 vm).vm.registers.sp = 16 ∧
      (∀ j, j < 16 →
        (chVmRun 16 vm).vm.stack.stack j = (chVmRun j vm).vm.registers.pc + 2 ∧
        (chVmRun 16 vm).vm.stack.stack j = vm.registers.pc + 2 * (j + 1)) ∧
      (chVmRun 17 vm).halt = some ChHalt.stackOverflow ∧
      (chVmRun 17 vm).vm.stack = (chVmRun 16 vm).vm.stack ∧
      (chVmRun 17 vm).vm.registers.sp = 16 ∧
      (∀ k, Access.stack k ∉ (chVmStep (chVmRun 16 vm).vm).trace)) := by
  refine ⟨?_, ?_, ?_⟩
  · by_cases hsp : 16 ≤ vm.registers.sp
    · rw [call_step_overflow vm hpc hop hsp]
      simp [hsp]
    · rw [call_step vm hpc hop (by omega)]
      simp [hsp]
  · intro hsp
    rw [call_step vm hpc hop hsp]
  · intro hsp hpc34 hcalls
    have hinv := calls_run vm hsp 16 (le_refl 16) (by omega)
      (fun j hj => hcalls j (by omega))
    obtain ⟨hh, hs, hp, hmem, hst⟩ := hinv 16 (le_refl 16)
    obtain ⟨e1, e2, _⟩ := chVmRun_succ 16 vm hh
    have hfetch : fetch (chVmRun 16 vm).vm = fetch (vm.setPc (vm.registers.pc + 2 * 16)) :=
      fetch_congr _ _ (by simp [ChVm.setPc, hp]) (by simp [ChVm.setPc, hmem])
    have hop16 : (fetch (chVmRun 16 vm).vm).opcode = 2 := by
      rw [hfetch]; exact hcalls 16 (by omega)
    have hstep := call_step_overflow (chVmRun 16 vm).vm (by omega) hop16 (by omega)
    refine ⟨fun k hk => (hinv k hk).1, hs, ?_, ?_, ?_, ?_, ?_⟩
    · intro j hj
      refine ⟨?_, hst j hj⟩
      rw [hst j hj, (hinv j (by omega)).2.2.1]
      omega
    · rw [e2, hstep]
    · rw [e1, hstep]
      simp [ChVm.setPc]
    · rw [e1, hstep]
      simp [ChVm.setPc, hs]
    · intro k
      rw [hstep]
      simp

/-- C6 witness: the startup state whose program is seventeen CALLs. -/
theorem call_overflow_at_16_witness :
    (chVmRun 16 vmCalls17).vm.registers.sp = 16 ∧
    (chVmRun 17 vmCalls17).halt = some ChHalt.stackOverflow ∧
    (chVmRun 17 vmCalls17).vm.stack = (chVmRun 16 vmCalls17).vm.stack :=
  ⟨((call_overflow_at_16 vmCalls17 (by decide) (by decide)).2.2
      (by decide) (by decide) (by decide)).2.1,
   ((call_overflow_at_16 vmCalls17 (by decide) (by decide)).2.2
      (by decide) (by decide) (by decide)).2.2.2.1,
   ((call_overflow_at_16 vmCalls17 (by decide) (by decide)).2.2
      (by decide) (by decide) (by decide)).2.2.2.2.1⟩

/-! ## Memory bound and fetch -/

/-- C8 (code evaluated at failing inputs): draw sprite makes no bound check
and register block store checks `i + x` but copies `n = 5` bytes.  After
`AFFF` the draw `D001` reads memory index `0xFFF` and the loop goes on; after
`6001 AFFF F01E` the draw `D121` reads index `0x1000`, past the 4096 bytes;
after `AFFE` the store `F055` passes its check and writes indices
`0xFFE .. 0x1002`. -/
theorem memory_bound_not_enforced :
    ((chVmRun 1 vmDrwAtBound).halt = none ∧
      (chVmRun 1 vmDrwAtBound).vm.registers.i = 0xFFF ∧
      fetch (chVmRun 1 vmDrwAtBound).vm = { instruction := 0xD001 } ∧
      (chVmStep (chVmRun 1 vmDrwAtBound).vm).halt = none ∧
      (chVmStep (chVmRun 1 vmDrwAtBound).vm).trace =
        [Access.mem 0x202, Access.mem 0x203, Access.mem 0xFFF, Access.row 0,
          Access.row 0]) ∧
    ((chVmRun 3 vmDrwBeyond).halt = none ∧
      (chVmRun 3 vmDrwBeyond).vm.registers.i = 0x1000 ∧
      fetch (chVmRun 3 vmDrwBeyond).vm = { instruction := 0xD121 } ∧
      (chVmStep (chVmRun 3 vmDrwBeyond).vm).halt = none ∧
      (chVmStep (chVmRun 3 vmDrwBeyond).vm).trace =
        [Access.mem 0x206, Access.mem 0x207, Access.mem 0x1000, Access.row 0,
          Access.row 0]) ∧
    ((chVmRun 1 vmStoreBeyond).halt = none ∧
      (chVmRun 1 vmStoreBeyond).vm.registers.i = 0xFFE ∧
      fetch (chVmRun 1 vmStoreBeyond).vm = { instruction := 0xF055 } ∧
      (chVmStep (chVmRun 1 vmStoreBeyond).vm).halt = none ∧
      (chVmStep (chVmRun 1 vmStoreBeyond).vm).trace =
        [Access.mem 0x202, Access.mem 0x203, Access.mem 0xFFE, Access.mem 0xFFF,
          Access.mem 0x1000, Access.mem 0x1001, Access.mem 0x1002]) := by
  decide

/-- No case of the opcode switch leaves the loop through the fetch check. -/
theorem execute_halt_ne_fetchBound (w : ChInstruction) (vm : ChVm) :
    (execute w vm).halt ≠ some ChHalt.fetchBound := by
  unfold execute
  split <;> simp only [execSys, execCall, execRr, execDrw, execSpec, continueWith, haltWith] <;>
    (repeat' split) <;> simp

/-- C9 (as stated, refuted): after the jump `1FFD`, `pc = 0xFFD`, so
`pc + 2 = 0xFFF` does not exceed `0xFFF`; the next iteration still halts at
the fetch check, reading nothing and leaving `pc` where it was. -/
theorem fetch_halts_at_FFD :
    (chVmStep vmJumpFFD).halt = none ∧
    (chVmStep vmJumpFFD).vm.registers.pc = 0xFFD ∧
    (chVmStep vmJumpFFD).vm.registers.pc + 2 ≤ 0xFFF ∧
    ¬ ((chVmStep vmJumpFFD).vm.registers.pc + 2 > 0xFFF) ∧
    (chVmStep (chVmStep vmJumpFFD).vm).halt = some ChHalt.fetchBound ∧
    (chVmStep (chVmStep vmJumpFFD).vm).vm.registers.pc = 0xFFD ∧
    (chVmStep (chVmStep vmJumpFFD).vm).trace = [] := by
  decide

/-- C9 (amended): an iteration halts at the fetch check exactly when
`pc + 2 ≥ 0xFFF`, and then changes nothing and reads nothing; for every `pc`
with `pc + 2 < 0xFFF` it reads the two bytes at `pc`, advances `pc` by 2 and
executes the fetched word. -/
theorem fetch_halts_iff (vm : ChVm) :
    ((chVmStep vm).halt = some ChHalt.fetchBound ↔ vm.registers.pc + 2 ≥ 0xFFF) ∧
    (vm.registers.pc + 2 ≥ 0xFFF → (chVmStep vm).vm = vm ∧ (chVmStep vm).trace = []) ∧
    (vm.registers.pc + 2 < 0xFFF →
      (chVmStep vm).vm = (execute (fetch vm) (vm.setPc (vm.registers.pc + 2))).vm ∧
      (chVmStep vm).halt = (execute (fetch vm) (vm.setPc (vm.registers.pc + 2))).halt ∧
      (chVmStep vm).trace = Access.mem vm.registers.pc :: Access.mem (vm.registers.pc + 1) ::
        (execute (fetch vm) (vm.setPc (vm.registers.pc + 2))).trace ∧
      (vm.setPc (vm.registers.pc + 2)).registers.pc = vm.registers.pc + 2) := by
  refine ⟨?_, ?_, ?_⟩
  · by_cases h : vm.registers.pc + 2 ≥ 0xFFF
    · simp [chVmStep, h, haltWith]
    · rw [chVmStep_of_fetch vm (by omega)]
      simp only [h, iff_false]
      exact execute_halt_ne_fetchBound _ _
  · intro h
    simp [chVmStep, h, haltWith]
  · intro h
    rw [chVmStep_of_fetch vm h]
    simp [ChVm.setPc]

/-- The byte reorder of the fetch on two bytes `hi`, `lo`. -/
theorem reorder_bytes (hi lo : Nat) (hhi : hi < 256) (hlo : lo < 256) :
    (0 ||| ((hi + 256 * lo) <<< 8) ||| ((hi + 256 * lo) >>> 8)) % 65536 = 256 * hi + lo := by
  have h1 : (hi + 256 * lo) >>> 8 = lo := by
    rw [Nat.shiftRight_eq_div_pow]; omega
  have h2 : (hi + 256 * lo) <<< 8 = 2 ^ 8 * (hi + 256 * lo) := by
    rw [Nat.shiftLeft_eq]; omega
  have h3 : lo < 2 ^ 8 := by omega
  rw [Nat.zero_or, h1, h2, ← Nat.mul_add_lt_is_or h3]
  omega

/-- C10: for every `pc` passing the fetch check and bytes `hi = memory[pc]`,
`lo = memory[pc + 1]`, the fetched instruction is the big-endian word
`256 * hi + lo`, it is the word the iteration executes, and its fields are
`opcode = hi / 16`, `x = hi mod 16`, `y = lo / 16`, `n = lo mod 16`,
`nn = lo`, `nnn = w mod 4096`; every 16-bit word `w` decodes, with fields in
range and `w = 4096 * opcode + nnn`, `nnn = 256 * x + nn`, `nn = 16 * y + n`. -/
theorem fetch_decode_big_endian (vm : ChVm) (hpc : vm.registers.pc + 2 < 0xFFF)
    (hhi : vm.memory.bytes vm.registers.pc < 256)
    (hlo : vm.memory.bytes (vm.registers.pc + 1) < 256) :
    (fetch vm).instruction =
      256 * vm.memory.bytes vm.registers.pc + vm.memory.bytes (vm.registers.pc + 1) ∧
    (chVmStep vm).vm = (execute (fetch vm) (vm.setPc (vm.registers.pc + 2))).vm ∧
    (fetch vm).opcode = vm.memory.bytes vm.registers.pc / 16 ∧
    (fetch vm).x = vm.memory.bytes vm.registers.pc % 16 ∧
    (fetch vm).y = vm.memory.bytes (vm.registers.pc + 1) / 16 ∧
    (fetch vm).n = vm.memory.bytes (vm.registers.pc + 1) % 16 ∧
    (fetch vm).nn = vm.memory.bytes (vm.registers.pc + 1) ∧
    (fetch vm).nnn =
      (256 * vm.memory.bytes vm.registers.pc + vm.memory.bytes (vm.registers.pc + 1)) % 4096 ∧
    (∀ w : ChInstruction, w.instruction < 65536 →
      w.opcode < 16 ∧ w.x < 16 ∧ w.y < 16 ∧ w.n < 16 ∧ w.nn < 256 ∧ w.nnn < 4096 ∧
      w.instruction = 4096 * w.opcode + w.nnn ∧
      w.nnn = 256 * w.x + w.nn ∧
      w.nn = 16 * w.y + w.n) := by
  have hf : fetch vm = { instruction :=
      256 * vm.memory.bytes vm.registers.pc + vm.memory.bytes (vm.registers.pc + 1) } := by
    simp only [fetch, reorder_bytes _ _ hhi hlo]
  refine ⟨by rw [hf], by rw [chVmStep_of_fetch vm hpc], ?_, ?_, ?_, ?_, ?_, ?_, ?_⟩
  · rw [hf]; simp only [ChInstruction.opcode]; omega
  · rw [hf]; simp only [ChInstruction.x]; omega
  · rw [hf]; simp only [ChInstruction.y]; omega
  · rw [hf]; simp only [ChInstruction.n]; omega
  · rw [hf]; simp only [ChInstruction.nn]; omega
  · rw [hf]; simp only [ChInstruction.nnn]
  · intro w hw
    simp only [ChInstruction.opcode, ChInstruction.x, ChInstruction.y, ChInstruction.n,
      ChInstruction.nn, ChInstruction.nnn]
    omega

/-- C10 witness: the bytes `D1 2F` at `0x200` decode to the word `0xD12F`
with `opcode = 0xD`, `x = 1`, `y = 2`, `n = 0xF`. -/
theorem fetch_decode_big_endian_witness :
    (fetch vmWordD12F).instruction =
      256 * vmWordD12F.memory.bytes vmWordD12F.registers.pc +
        vmWordD12F.memory.bytes (vmWordD12F.registers.pc + 1) ∧
    (fetch vmWordD12F).opcode = vmWordD12F.memory.bytes vmWordD12F.registers.pc / 16 ∧
    (fetch vmWordD12F).x = vmWordD12F.memory.bytes vmWordD12F.registers.pc % 16 :=
  ⟨(fetch_decode_big_endian vmWordD12F (by decide) (by decide) (by decide)).1,
   (fetch_decode_big_endian vmWordD12F (by decide) (by decide) (by decide)).2.2.1,
   (fetch_decode_big_endian vmWordD12F (by decide) (by decide) (by decide)).2.2.2.1⟩

/-! ## Register block store and load -/

/-- C11 (code evaluated at failing inputs): register block store copies
`instruction.n = 5` bytes whatever `x` is.  After `6107 A300` the store `F055`
(`x = 0`) also writes `memory[0x301] = v[1] = 7`, a byte outside `[i, i + x]`
that held 0; after `6507 A300` the store `F555` (`x = 5`) leaves
`memory[0x305] = 0` although `v[5] = 7`. -/
theorem block_store_copies_five :
    ((chVmRun 2 vmStoreX0).halt = none ∧
      fetch (chVmRun 2 vmStoreX0).vm = { instruction := 0xF055 } ∧
      (chVmRun 2 vmStoreX0).vm.registers.i = 0x300 ∧
      (chVmRun 2 vmStoreX0).vm.registers.v 1 = 7 ∧
      (chVmRun 2 vmStoreX0).vm.memory.bytes 0x301 = 0 ∧
      (chVmStep (chVmRun 2 vmStoreX0).vm).halt = none ∧
      (chVmStep (chVmRun 2 vmStoreX0).vm).vm.memory.bytes 0x301 = 7 ∧
      (chVmStep (chVmRun 2 vmStoreX0).vm).trace =
        [Access.mem 0x204, Access.mem 0x205, Access.mem 0x300, Access.mem 0x301,
          Access.mem 0x302, Access.mem 0x303, Access.mem 0x304]) ∧
    ((chVmRun 2 vmStoreX5).halt = none ∧
      fetch (chVmRun 2 vmStoreX5).vm = { instruction := 0xF555 } ∧
      (chVmRun 2 vmStoreX5).vm.registers.i = 0x300 ∧
      (chVmRun 2 vmStoreX5).vm.registers.v 5 = 7 ∧
      (chVmStep (chVmRun 2 vmStoreX5).vm).halt = none ∧
      (chVmStep (chVmRun 2 vmStoreX5).vm).vm.memory.bytes 0x305 = 0 ∧
      (chVmStep (chVmRun 2 vmStoreX5).vm).vm.memory.bytes 0x305 ≠
        (chVmRun 2 vmStoreX5).vm.registers.v 5) := by
  decide

/-- C12 (code evaluated at the failing input): register block load copies
`x` bytes, not `x + 1`.  In the startup state (`i = 0`, `memory[0] = 0xF0`,
`memory[1] = 0x90`) the load `F165` sets `v[0] = 0xF0` and leaves `v[1] = 0`,
not `memory[1]`. -/
theorem block_load_stops_before_vx :
    fetch vmLoadX1 = { instruction := 0xF165 } ∧
    vmLoadX1.registers.i = 0 ∧
    vmLoadX1.memory.bytes 0 = 0xF0 ∧ vmLoadX1.memory.bytes 1 = 0x90 ∧
    (chVmStep vmLoadX1).halt = none ∧
    (chVmStep vmLoadX1).vm.registers.v 0 = 0xF0 ∧
    (chVmStep vmLoadX1).vm.registers.v 1 = 0 ∧
    (chVmStep vmLoadX1).vm.registers.v 1 ≠ vmLoadX1.memory.bytes 1 ∧
    (chVmStep vmLoadX1).trace = [Access.mem 0x200, Access.mem 0x201, Access.mem 0] := by
  decide

/-- C13 (code evaluated at failing inputs): store, zero, load does not bring
`v[x]` back.  With `x = 0`: `v[0] = 7` is stored at `0x300`, `v[0]` is zeroed,
and the load `F065` copies no byte, so `v[0] = 0`.  With `x = 3`: `v[3] = 7` is
stored at `0x303`, `v[3]` is zeroed, and the load `F365` copies three bytes
into `v[0 .. 2]`, so `v[3] = 0`. -/
theorem store_load_loses_vx :
    ((chVmRun 1 vmStoreLoadX0).vm.registers.v 0 = 7 ∧
      (chVmRun 3 vmStoreLoadX0).vm.memory.bytes 0x300 = 7 ∧
      (chVmRun 4 vmStoreLoadX0).vm.registers.v = (fun _ => 0) ∧
      fetch (chVmRun 4 vmStoreLoadX0).vm = { instruction := 0xF065 } ∧
      (chVmRun 5 vmStoreLoadX0).halt = none ∧
      (chVmRun 5 vmStoreLoadX0).vm.registers.v 0 = 0) ∧
    ((chVmRun 1 vmStoreLoadX3).vm.registers.v 3 = 7 ∧
      (chVmRun 3 vmStoreLoadX3).vm.memory.bytes 0x303 = 7 ∧
      (chVmRun 4 vmStoreLoadX3).vm.registers.v = (fun _ => 0) ∧
      fetch (chVmRun 4 vmStoreLoadX3).vm = { instruction := 0xF365 } ∧
      (chVmRun 5 vmStoreLoadX3).halt = none ∧
      (chVmRun 5 vmStoreLoadX3).vm.registers.v 3 = 0) := by
  refine ⟨⟨by decide, by decide, ?_, by decide, by decide, by decide⟩,
    ⟨by decide, by decide, ?_, by decide, by decide, by decide⟩⟩
  · funext k
    simp [chVmRun, chVmStep, vmStoreLoadX0, startVm, fetch, execute, execSpec,
      ChInstruction.opcode, ChInstruction.x, ChInstruction.nn, ChInstruction.nnn,
      ChInstruction.n, continueWith, ChVm.setPc, ChVm.setV, ChVm.setI, store, memcpy]
  · funext k
    simp [chVmRun, chVmStep, vmStoreLoadX3, startVm, fetch, execute, execSpec,
      ChInstruction.opcode, ChInstruction.x, ChInstruction.nn, ChInstruction.nnn,
      ChInstruction.n, continueWith, ChVm.setPc, ChVm.setV, ChVm.setI, store, memcpy]

/-! ## BCD store -/

/-- C14: for every register index `x` below 16 and every state about to run
`Fx33` with `d = v[x]` an 8-bit value: when `i + 2 < 0xFFF` the iteration
does not halt and writes `memory[i] = d / 100`, `memory[i + 1] = (d / 10) mod 10`,
`memory[i + 2] = d mod 10`, each a decimal digit, with
`100 * memory[i] + 10 * memory[i + 1] + memory[i + 2] = d`; every other memory
byte is unchanged and so are the registers (only `pc` is advanced by the
fetch); the accesses after the fetch are these three bytes.  When
`i + 2 ≥ 0xFFF` the iteration halts, memory is unchanged and no byte is
accessed after the fetch. -/
theorem bcd_store_digits (vm : ChVm) (x : Nat) (hx : x < 16)
    (hpc : vm.registers.pc + 2 < 0xFFF)
    (hw : fetch vm = { instruction := 0xF033 + 256 * x })
    (hd : vm.registers.v x < 256) :
    (vm.registers.i + 2 < 0xFFF →
      (chVmStep vm).halt = none ∧
      (chVmStep vm).vm.memory.bytes vm.registers.i = vm.registers.v x / 100 ∧
      (chVmStep vm).vm.memory.bytes (vm.registers.i + 1) = (vm.registers.v x / 10) % 10 ∧
      (chVmStep vm).vm.memory.bytes (vm.registers.i + 2) = vm.registers.v x % 10 ∧
      (chVmStep vm).vm.memory.bytes vm.registers.i ≤ 9 ∧
      (chVmStep vm).vm.memory.bytes (vm.registers.i + 1) ≤ 9 ∧
      (chVmStep vm).vm.memory.bytes (vm.registers.i + 2) ≤ 9 ∧
      100 * (chVmStep vm).vm.memory.bytes vm.registers.i +
        10 * (chVmStep vm).vm.memory.bytes (vm.registers.i + 1) +
        (chVmStep vm).vm.memory.bytes (vm.registers.i + 2) = vm.registers.v x ∧
      (∀ a, a ≠ vm.registers.i → a ≠ vm.registers.i + 1 → a ≠ vm.registers.i + 2 →
        (chVmStep vm).vm.memory.bytes a = vm.memory.bytes a) ∧
      (chVmStep vm).vm.registers = { vm.registers with pc := vm.registers.pc + 2 } ∧
      (chVmStep vm).trace =
        [Access.mem vm.registers.pc, Access.mem (vm.registers.pc + 1),
          Access.mem vm.registers.i, Access.mem (vm.registers.i + 1),
          Access.mem (vm.registers.i + 2)]) ∧
    (vm.registers.i + 2 ≥ 0xFFF →
      (chVmStep vm).halt = some ChHalt.bcdBound ∧
      (chVmStep vm).vm.memory = vm.memory ∧
      (chVmStep vm).trace = [Access.mem vm.registers.pc, Access.mem (vm.registers.pc + 1)]) := by
  have hop : ChInstruction.opcode { instruction := 0xF033 + 256 * x } = 15 := by
    simp only [ChInstruction.opcode]; omega
  have hxx : ChInstruction.x { instruction := 0xF033 + 256 * x } = x := by
    simp only [ChInstruction.x]; omega
  have hnn : ChInstruction.nn { instruction := 0xF033 + 256 * x } = 0x33 := by
    simp only [ChInstruction.nn]; omega
  rw [chVmStep_of_fetch vm hpc, hw]
  simp only [execute, hop, execSpec, hnn, hxx, continueWith, haltWith, ChVm.setPc,
    ChVm.setByte, store]
  constructor
  · intro hi
    have hni : ¬ (vm.registers.i + 2 ≥ 0xFFF) := by omega
    simp only [hni, if_false]
    refine ⟨trivial, ?_, ?_, ?_, ?_, ?_, ?_, ?_, ?_, trivial, trivial⟩
    · simp [store]; omega
    · simp [store]
    · simp [store]
    · simp [store]; omega
    · simp [store]; omega
    · simp [store]; omega
    · simp [store]; omega
    · intro a h0 h1 h2
      simp [store, h0, h1, h2]
  · intro hi
    simp only [hi, if_true]
    exact ⟨trivial, trivial, trivial⟩

/-- C14 witness: `F033` on `v[0] = 157`, `i = 0x300` writes 1, 5, 7; with
`i = 0xFFD` it halts. -/
theorem bcd_store_digits_witness :
    ((chVmStep vmBcd157).vm.memory.bytes 0x300 = 157 / 100 ∧
      (chVmStep vmBcd157).vm.memory.bytes (0x300 + 1) = (157 / 10) % 10 ∧
      (chVmStep vmBcd157).vm.memory.bytes (0x300 + 2) = 157 % 10) ∧
    (chVmStep vmBcdAtBound).halt = some ChHalt.bcdBound :=
  ⟨⟨((bcd_store_digits vmBcd157 0 (by decide) (by decide) (by decide) (by decide)).1
        (by decide)).2.1,
    ((bcd_store_digits vmBcd157 0 (by decide) (by decide) (by decide) (by decide)).1
        (by decide)).2.2.1,
    ((bcd_store_digits vmBcd157 0 (by decide) (by decide) (by decide) (by decide)).1
        (by decide)).2.2.2.1⟩,
   ((bcd_store_digits vmBcdAtBound 0 (by decide) (by decide) (by decide) (by decide)).2
      (by decide)).1⟩

/-! ## Draw sprite -/

/-- Rows after the first draw loop: row `k` is XORed with the shifted sprite
byte when `k` is one of the rows the loop reaches, and is left alone
otherwise. -/
theorem drwLoop_rows (vx vy i : Nat) (bytes : Nat → Nat) :
    ∀ (count row : Nat) (rows : Nat → Nat) (k : Nat),
      (drwLoop vx vy i bytes count row rows).1 k =
        if vy + row ≤ k ∧ k < vy + row + count ∧ k < 32 then
          rows k ^^^ shl64 (bytes (i + (k - vy))) vx
        else rows k := by
  intro count
  induction count with
  | zero =>
    intro row rows k
    have h : ¬ (vy + row ≤ k ∧ k < vy + row + 0 ∧ k < 32) := by omega
    simp only [drwLoop, h, if_false]
  | succ count ih =>
    intro row rows k
    simp only [drwLoop]
    by_cases hclip : vy + row ≥ 32
    · have h : ¬ (vy + row ≤ k ∧ k < vy + row + (count + 1) ∧ k < 32) := by omega
      simp only [hclip, if_true, h, if_false]
    · simp only [hclip, if_false, ih]
      by_cases hk : k = vy + row
      · have h1 : ¬ (vy + (row + 1) ≤ k ∧ k < vy + (row + 1) + count ∧ k < 32) := by omega
        have h2 : vy + row ≤ k ∧ k < vy + row + (count + 1) ∧ k < 32 := by omega
        have h3 : k - vy = row := by omega
        simp only [h1, if_false, h2, if_true, h3]
        simp [store, hk]
      · have h1 : (vy + (row + 1) ≤ k ∧ k < vy + (row + 1) + count ∧ k < 32) ↔
            (vy + row ≤ k ∧ k < vy + row + (count + 1) ∧ k < 32) := by omega
        simp only [h1, store, hk, if_false]

/-- Accesses of the first draw loop: sprite bytes `i + r` and rows `vy + r`
for loop indices `r` with `vy + r < 32`. -/
theorem drwLoop_trace (vx vy i : Nat) (bytes : Nat → Nat) :
    ∀ (count row : Nat) (rows : Nat → Nat) (a : Access),
      a ∈ (drwLoop vx vy i bytes count row rows).2 →
        ∃ r, row ≤ r ∧ r < row + count ∧ vy + r < 32 ∧
          (a = Access.mem (i + r) ∨ a = Access.row (vy + r)) := by
  intro count
  induction count with
  | zero =>
    intro row rows a ha
    simp [drwLoop] at ha
  | succ count ih =>
    intro row rows a ha
    simp only [drwLoop] at ha
    by_cases hclip : vy + row ≥ 32
    · simp [hclip] at ha
    · simp only [hclip, if_false, List.mem_cons] at ha
      rcases ha with h | h | h
      · exact ⟨row, le_refl _, by omega, by omega, Or.inl h⟩
      · exact ⟨row, le_refl _, by omega, by omega, Or.inr h⟩
      · obtain ⟨r, h1, h2, h3, h4⟩ := ih _ _ a h
        exact ⟨r, by omega, by omega, h3, h4⟩

/-- Accesses of the redraw loop: rows `vy + r` with `vy + r < 32`. -/
theorem drwRedraw_trace (vy : Nat) :
    ∀ (count row : Nat) (a : Access), a ∈ drwRedraw vy count row →
      ∃ r, row ≤ r ∧ r < row + count ∧ vy + r < 32 ∧ a = Access.row (vy + r) := by
  intro count
  induction count with
  | zero =>
    intro row a ha
    simp [drwRedraw] at ha
  | succ count ih =>
    intro row a ha
    simp only [drwRedraw] at ha
    by_cases hclip : vy + row ≥ 32
    · simp [hclip] at ha
    · simp only [hclip, if_false, List.mem_cons] at ha
      rcases ha with h | h
      · exact ⟨row, le_refl _, by omega, by omega, h⟩
      · obtain ⟨r, h1, h2, h3, h4⟩ := ih _ a h
        exact ⟨r, by omega, by omega, h3, h4⟩

/-- An iteration that draws: the state is the old one with `pc` advanced and
the rows produced by the first draw loop; the loop goes on. -/
theorem drw_step (vm : ChVm) (x y n : Nat) (hx : x < 16) (hy : y < 16) (hn : n < 16)
    (hpc : vm.registers.pc + 2 < 0xFFF)
    (hw : fetch vm = { instruction := 0xD000 + 256 * x + 16 * y + n }) :
    chVmStep vm =
      { vm := { vm.setPc (vm.registers.pc + 2) with
                videoMemory := { rows := (drwLoop (vm.registers.v x) (vm.registers.v y)
                  vm.registers.i vm.memory.bytes n 0 vm.videoMemory.rows).1 } },
        halt := none,
        trace := Access.mem vm.registers.pc :: Access.mem (vm.registers.pc + 1) ::
          ((drwLoop (vm.registers.v x) (vm.registers.v y) vm.registers.i vm.memory.bytes
              n 0 vm.videoMemory.rows).2 ++ drwRedraw (vm.registers.v y) n 0) } := by
  have hshape : 0xD000 + 256 * x + 16 * y + n = 4096 * 13 + 256 * x + 16 * y + n := by omega
  obtain ⟨hop, hxx, hyy, hnn⟩ := fields_of_nibbles 13 x y n (by omega) hx hy hn
  rw [chVmStep_of_fetch vm hpc, hw, hshape]
  simp only [execute, hop, execDrw, hxx, hyy, hnn, continueWith, ChVm.setPc]

/-- C15 (as stated, refuted): in the startup state the draw `D005` leaves
row 0 equal to `0xF0`, the sprite byte in bits 0 .. 7; bits 56 .. 63 of the
row are zero, so the row is not `0xF0` placed in the top 8 bits. -/
theorem draw_digit_zero_not_top_bits :
    fetch vmDrawZero = { instruction := 0xD005 } ∧
    vmDrawZero.registers.i = 0 ∧ vmDrawZero.registers.v 0 = 0 ∧
    vmDrawZero.videoMemory.rows 0 = 0 ∧ vmDrawZero.memory.bytes 0 = 0xF0 ∧
    (chVmStep vmDrawZero).vm.videoMemory.rows 0 = 0xF0 ∧
    (chVmStep vmDrawZero).vm.videoMemory.rows 0 / 2 ^ 56 = 0 ∧
    (chVmStep vmDrawZero).vm.videoMemory.rows 0 ≠ 0xF0 * 2 ^ 56 := by
  decide

/-- C15 (amended): in the startup state of any program whose first
instruction is a draw `Dxy5` (so `i = 0`, `v[x] = v[y] = 0`, framebuffer all
zero), the iteration does not halt and leaves rows 0 .. 4 equal to
`0xF0, 0x90, 0x90, 0x90, 0xF0`, the sprite bytes in bits 0 .. 7 with all
other bits zero, and every row from 5 on equal to zero. -/
theorem draw_digit_zero_low_bits (program : List Nat) (x y : Nat) (hx : x < 16)
    (hy : y < 16)
    (hw : fetch (startVm program) = { instruction := 0xD005 + 256 * x + 16 * y }) :
    (chVmStep (startVm program)).halt = none ∧
    (chVmStep (startVm program)).vm.videoMemory.rows 0 = 0xF0 ∧
    (chVmStep (startVm program)).vm.videoMemory.rows 1 = 0x90 ∧
    (chVmStep (startVm program)).vm.videoMemory.rows 2 = 0x90 ∧
    (chVmStep (startVm program)).vm.videoMemory.rows 3 = 0x90 ∧
    (chVmStep (startVm program)).vm.videoMemory.rows 4 = 0xF0 ∧
    (∀ k, 5 ≤ k → (chVmStep (startVm program)).vm.videoMemory.rows k = 0) := by
  have hw5 : fetch (startVm program) =
      { instruction := 0xD000 + 256 * x + 16 * y + 5 } := by
    rw [hw]; congr 1; omega
  have hpc : (startVm program).registers.pc + 2 < 0xFFF := by simp [startVm]
  rw [drw_step (startVm program) x y 5 hx hy (by omega) hpc hw5]
  simp only [drwLoop_rows]
  refine ⟨trivial, ?_, ?_, ?_, ?_, ?_, ?_⟩
  · simp [startVm, shl64, font]
  · simp [startVm, shl64, font]
  · simp [startVm, shl64, font]
  · simp [startVm, shl64, font]
  · simp [startVm, shl64, font]
  · intro k hk
    have h : ¬ ((startVm program).registers.v y + 0 ≤ k ∧
        k < (startVm program).registers.v y + 0 + 5 ∧ k < 32) := by
      simp [startVm]; omega
    simp only [h, if_false]
    simp [startVm]

/-- C15 witness: the startup state running `D005`. -/
theorem draw_digit_zero_low_bits_witness :
    (chVmStep vmDrawZero).vm.videoMemory.rows 0 = 0xF0 ∧
    (chVmStep vmDrawZero).vm.videoMemory.rows 1 = 0x90 ∧
    (∀ k, 5 ≤ k → (chVmStep vmDrawZero).vm.videoMemory.rows k = 0) :=
  ⟨(draw_digit_zero_low_bits [0xD0, 0x05] 0 0 (by decide) (by decide) (by decide)).2.1,
   (draw_digit_zero_low_bits [0xD0, 0x05] 0 0 (by decide) (by decide) (by decide)).2.2.1,
   (draw_digit_zero_low_bits [0xD0, 0x05] 0 0 (by decide) (by decide)
      (by decide)).2.2.2.2.2.2⟩

/-- C16: for every state about to run a draw `Dxyn` (any `v[y]`, any `n`
below 16) the iteration does not halt; every framebuffer row index it
accesses is below 32 and lies in `[v[y], v[y] + n)`, so rows with
`v[y] + row ≥ 32` are neither drawn nor wrapped to the top; every row with
index outside `[v[y], min (v[y] + n) 32)` is left unchanged. -/
theorem draw_clips_rows (vm : ChVm) (x y n : Nat) (hx : x < 16) (hy : y < 16)
    (hn : n < 16) (hpc : vm.registers.pc + 2 < 0xFFF)
    (hw : fetch vm = { instruction := 0xD000 + 256 * x + 16 * y + n }) :
    (chVmStep vm).halt = none ∧
    (∀ k, Access.row k ∈ (chVmStep vm).trace →
      k < 32 ∧ vm.registers.v y ≤ k ∧ k < vm.registers.v y + n) ∧
    (∀ k, ¬ (vm.registers.v y ≤ k ∧ k < min (vm.registers.v y + n) 32) →
      (chVmStep vm).vm.videoMemory.rows k = vm.videoMemory.rows k) := by
  rw [drw_step vm x y n hx hy hn hpc hw]
  refine ⟨rfl, ?_, ?_⟩
  · intro k hk
    simp only [List.mem_cons, List.mem_append] at hk
    rcases hk with h | h | h | h
    · cases h
    · cases h
    · obtain ⟨r, _, h2, h3, h4⟩ := drwLoop_trace _ _ _ _ _ _ _ _ h
      rcases h4 with h4 | h4
      · cases h4
      · cases h4
        omega
    · obtain ⟨r, _, h2, h3, h4⟩ := drwRedraw_trace _ _ _ _ h
      cases h4
      omega
  · intro k hk
    have h : ¬ (vm.registers.v y + 0 ≤ k ∧ k < vm.registers.v y + 0 + n ∧ k < 32) := by
      omega
    simp only [drwLoop_rows, h, if_false, ChVm.setPc]

/-- C16 witness: `D015` with `v[1] = 30` touches rows 30 and 31 only. -/
theorem draw_clips_rows_witness :
    (chVmStep vmDrawClip).halt = none ∧
    (∀ k, Access.row k ∈ (chVmStep vmDrawClip).trace →
      k < 32 ∧ vmDrawClip.registers.v 1 ≤ k ∧ k < vmDrawClip.registers.v 1 + 5) ∧
    (∀ k, ¬ (vmDrawClip.registers.v 1 ≤ k ∧ k < min (vmDrawClip.registers.v 1 + 5) 32) →
      (chVmStep vmDrawClip).vm.videoMemory.rows k = vmDrawClip.videoMemory.rows k) :=
  draw_clips_rows vmDrawClip 0 1 5 (by decide) (by decide) (by decide) (by decide)
    (by decide)

/-- C19 (code evaluated at the failing input): the draw has no guard on
`v[x]`.  After `6040` the draw `D011` runs with `v[0] = 64` on row 0 equal to
0 and sprite byte `0xF0`.  The claim has the row unchanged,
`0 XOR ((0xF0 * 2 ^ 64) mod 2 ^ 64) = 0`, all bits lost beyond bit 63; the
shift by 64 has no value in C, the host shift uses the count modulo 64, and
the byte comes back into the low bits: the row becomes `0xF0`. -/
theorem draw_shift_count_64 :
    (chVmRun 1 vmDrawWide).halt = none ∧
    fetch (chVmRun 1 vmDrawWide).vm = { instruction := 0xD011 } ∧
    (chVmRun 1 vmDrawWide).vm.registers.v 0 = 64 ∧
    (chVmRun 1 vmDrawWide).vm.registers.v 1 = 0 ∧
    (chVmRun 1 vmDrawWide).vm.memory.bytes (chVmRun 1 vmDrawWide).vm.registers.i = 0xF0 ∧
    (chVmRun 1 vmDrawWide).vm.videoMemory.rows 0 = 0 ∧
    (chVmStep (chVmRun 1 vmDrawWide).vm).vm.videoMemory.rows 0 = 0xF0 ∧
    (chVmStep (chVmRun 1 vmDrawWide).vm).vm.videoMemory.rows 0 ≠
      0 ^^^ ((0xF0 * 2 ^ 64) % 2 ^ 64) := by
  decide

/-- Draw with a shift count the C shift is defined for: for every state
about to run a draw `Dxyn` with `v[x] < 64`, and every `row` below `n` with
`v[y] + row < 32`, framebuffer row `v[y] + row` becomes its old value XOR
`(memory[i + row] * 2 ^ v[x]) mod 2 ^ 64`: the sprite byte shifted left by
`v[x]` positions, the bits shifted beyond bit 63 lost. -/
theorem draw_xor_shifted_byte (vm : ChVm) (x y n : Nat) (hx : x < 16) (hy : y < 16)
    (hn : n < 16) (hpc : vm.registers.pc + 2 < 0xFFF)
    (hw : fetch vm = { instruction := 0xD000 + 256 * x + 16 * y + n })
    (hvx : vm.registers.v x < 64) :
    (chVmStep vm).halt = none ∧
    (∀ row, row < n → vm.registers.v y + row < 32 →
      (chVmStep vm).vm.videoMemory.rows (vm.registers.v y + row) =
        vm.videoMemory.rows (vm.registers.v y + row) ^^^
          ((vm.memory.bytes (vm.registers.i + row) * 2 ^ vm.registers.v x) % 2 ^ 64)) := by
  rw [drw_step vm x y n hx hy hn hpc hw]
  refine ⟨rfl, ?_⟩
  intro row hrow hclip
  have h : vm.registers.v y + 0 ≤ vm.registers.v y + row ∧
      vm.registers.v y + row < vm.registers.v y + 0 + n ∧ vm.registers.v y + row < 32 := by
    omega
  have hsub : vm.registers.v y + row - vm.registers.v y = row := by omega
  simp only [drwLoop_rows, h, if_true, ChVm.setPc, and_self, hsub, shl64,
    Nat.mod_eq_of_lt hvx, Nat.shiftLeft_eq]

/-- Example for the draw with `v[x] < 64`: `D015` with `v[0] = 4`,
`v[1] = 30` on empty rows; row 30 becomes `0xF0 * 2 ^ 4 = 0xF00` and row 31
becomes `0x90 * 2 ^ 4 = 0x900`. -/
theorem draw_xor_shifted_byte_example :
    ((chVmStep vmDrawShift4).halt = none ∧
      (∀ row, row < 5 → vmDrawShift4.registers.v 1 + row < 32 →
        (chVmStep vmDrawShift4).vm.videoMemory.rows (vmDrawShift4.registers.v 1 + row) =
          vmDrawShift4.videoMemory.rows (vmDrawShift4.registers.v 1 + row) ^^^
            ((vmDrawShift4.memory.bytes (vmDrawShift4.registers.i + row) *
              2 ^ vmDrawShift4.registers.v 0) % 2 ^ 64))) ∧
    (chVmStep vmDrawShift4).vm.videoMemory.rows 30 = 0xF00 ∧
    (chVmStep vmDrawShift4).vm.videoMemory.rows 31 = 0x900 :=
  ⟨draw_xor_shifted_byte vmDrawShift4 0 1 5 (by decide) (by decide) (by decide) (by decide)
      (by decide) (by decide),
    by decide, by decide⟩

/-- C20: for every state about to run a draw `Dxyn`, the iteration does not
halt and changes no general register (`v[15]` included), neither `i`, `sp`,
the timers, the stack nor memory; `pc` is advanced by the fetch.  When the
next instruction executed is the same `Dxyn`, that second iteration brings
every framebuffer row back to its value before the first. -/
theorem draw_twice_restores (vm : ChVm) (x y n : Nat) (hx : x < 16) (hy : y < 16)
    (hn : n < 16) (hpc : vm.registers.pc + 2 < 0xFFF)
    (hw : fetch vm = { instruction := 0xD000 + 256 * x + 16 * y + n })
    (hpc2 : (chVmStep vm).vm.registers.pc + 2 < 0xFFF)
    (hw2 : fetch (chVmStep vm).vm = { instruction := 0xD000 + 256 * x + 16 * y + n }) :
    (chVmStep vm).halt = none ∧
    (chVmStep vm).vm.registers = { vm.registers with pc := vm.registers.pc + 2 } ∧
    (chVmStep vm).vm.registers.v = vm.registers.v ∧
    (chVmStep vm).vm.registers.i = vm.registers.i ∧
    (chVmStep vm).vm.stack = vm.stack ∧
    (chVmStep vm).vm.memory = vm.memory ∧
    (chVmStep (chVmStep vm).vm).halt = none ∧
    (∀ k, (chVmStep (chVmStep vm).vm).vm.videoMemory.rows k = vm.videoMemory.rows k) := by
  have hs1 := drw_step vm x y n hx hy hn hpc hw
  have hs2 := drw_step (chVmStep vm).vm x y n hx hy hn hpc2 hw2
  rw [hs2]
  refine ⟨?_, ?_, ?_, ?_, ?_, ?_, rfl, ?_⟩
  · rw [hs1]
  · rw [hs1]; rfl
  · rw [hs1]; rfl
  · rw [hs1]; rfl
  · rw [hs1]; rfl
  · rw [hs1]; rfl
  · intro k
    rw [hs1]
    simp only [ChVm.setPc, drwLoop_rows]
    by_cases h : vm.registers.v y + 0 ≤ k ∧ k < vm.registers.v y + 0 + n ∧ k < 32
    · simp only [h, and_self, if_true]
      exact Nat.xor_cancel_right _ _
    · simp only [h, if_false]

/-- C20 witness: `D015 D015` with pixels already in rows 30 and 31 and
`v[15] = 9`. -/
theorem draw_twice_restores_witness :
    (chVmStep vmDrawTwice).vm.registers.v = vmDrawTwice.registers.v ∧
    (chVmStep vmDrawTwice).vm.memory = vmDrawTwice.memory ∧
    (∀ k, (chVmStep (chVmStep vmDrawTwice).vm).vm.videoMemory.rows k =
      vmDrawTwice.videoMemory.rows k) :=
  ⟨(draw_twice_restores vmDrawTwice 0 1 5 (by decide) (by decide) (by decide) (by decide)
      (by decide) (by decide) (by decide)).2.2.1,
   (draw_twice_restores vmDrawTwice 0 1 5 (by decide) (by decide) (by decide) (by decide)
      (by decide) (by decide) (by decide)).2.2.2.2.2.1,
   (draw_twice_restores vmDrawTwice 0 1 5 (by decide) (by decide) (by decide) (by decide)
      (by decide) (by decide) (by decide)).2.2.2.2.2.2.2⟩

/-! ## Unknown sub-codes -/

/-- C17 (code evaluated at failing inputs): `F0FF` (opcode `0xF`, sub-code
`0xFF`) and `E0FF` (opcode `0xE`) do not halt the loop: the iteration only
advances `pc` to `0x202`, and the run goes on to execute the next
instruction `6005`.  More generally every word with opcode `0xE`, and every
word with opcode `0xF` whose `nn` is none of the nine defined sub-codes, is
executed as a step that changes nothing and does not halt. -/
theorem unknown_subcode_continues :
    (fetch vmSpecUnknown = { instruction := 0xF0FF } ∧
      (chVmStep vmSpecUnknown).halt = none ∧
      (chVmStep vmSpecUnknown).vm.registers.pc = 0x202 ∧
      (chVmRun 2 vmSpecUnknown).halt = none ∧
      (chVmRun 2 vmSpecUnknown).vm.registers.v 0 = 5) ∧
    (fetch vmKeyUnknown = { instruction := 0xE0FF } ∧
      (chVmStep vmKeyUnknown).halt = none ∧
      (chVmStep vmKeyUnknown).vm.registers.pc = 0x202 ∧
      (chVmRun 2 vmKeyUnknown).halt = none ∧
      (chVmRun 2 vmKeyUnknown).vm.registers.v 0 = 5) ∧
    (∀ (w : ChInstruction) (vm : ChVm), w.opcode = 0xE →
      execute w vm = continueWith vm []) ∧
    (∀ (w : ChInstruction) (vm : ChVm), w.opcode = 0xF →
      w.nn ≠ 0x06 → w.nn ≠ 0x0A → w.nn ≠ 0x15 → w.nn ≠ 0x18 → w.nn ≠ 0x1E →
      w.nn ≠ 0x29 → w.nn ≠ 0x33 → w.nn ≠ 0x55 → w.nn ≠ 0x65 →
      execute w vm = continueWith vm []) := by
  refine ⟨by decide, by decide, ?_, ?_⟩
  · intro w vm hop
    simp only [execute, hop]
  · intro w vm hop h1 h2 h3 h4 h5 h6 h7 h8 h9
    simp only [execute, hop, execSpec]

/-! ## Stack pointer range -/

/-- RET and CLS keep `sp` within 16 and touch stack slots below 16 only. -/
theorem execSys_sp (w : ChInstruction) (vm : ChVm) (h : vm.registers.sp ≤ 16) :
    (execSys w vm).vm.registers.sp ≤ 16 ∧
    ∀ k, Access.stack k ∈ (execSys w vm).trace → k < 16 := by
  simp only [execSys, continueWith, haltWith, ChVm.setSp, ChVm.setPc]
  split_ifs <;> simp <;> omega

/-- CALL keeps `sp` within 16 and touches stack slots below 16 only. -/
theorem execCall_sp (w : ChInstruction) (vm : ChVm) (h : vm.registers.sp ≤ 16) :
    (execCall w vm).vm.registers.sp ≤ 16 ∧
    ∀ k, Access.stack k ∈ (execCall w vm).trace → k < 16 := by
  simp only [execCall, continueWith, haltWith, ChVm.setSp, ChVm.setStack]
  split_ifs <;> simp <;> omega

/-- The register-register instructions leave `sp` alone and touch no stack
slot. -/
theorem execRr_sp (w : ChInstruction) (vm : ChVm) :
    (execRr w vm).vm.registers.sp = vm.registers.sp ∧ (execRr w vm).trace = [] := by
  simp only [execRr]
  split <;> simp [continueWith, haltWith, ChVm.setV]

/-- Draw leaves `sp` alone and touches no stack slot. -/
theorem execDrw_sp (w : ChInstruction) (vm : ChVm) :
    (execDrw w vm).vm.registers.sp = vm.registers.sp ∧
    ∀ k, Access.stack k ∉ (execDrw w vm).trace := by
  simp only [execDrw, continueWith]
  refine ⟨trivial, ?_⟩
  intro k hk
  simp only [List.mem_append] at hk
  rcases hk with hk | hk
  · obtain ⟨r, _, _, _, h4⟩ := drwLoop_trace _ _ _ _ _ _ _ _ hk
    rcases h4 with h4 | h4 <;> cases h4
  · obtain ⟨r, _, _, _, h4⟩ := drwRedraw_trace _ _ _ _ hk
    cases h4

/-- The special instructions leave `sp` alone and touch no stack slot. -/
theorem execSpec_sp (w : ChInstruction) (vm : ChVm) :
    (execSpec w vm).vm.registers.sp = vm.registers.sp ∧
    ∀ k, Access.stack k ∉ (execSpec w vm).trace := by
  simp only [execSpec]
  split <;> (try split) <;>
    simp [continueWith, haltWith, ChVm.setV, ChVm.setDt, ChVm.setSt, ChVm.setI, ChVm.setByte,
      memBlock]

/-- No instruction moves `sp` beyond 16 or touches a stack slot from 16 on. -/
theorem execute_sp (w : ChInstruction) (vm : ChVm) (h : vm.registers.sp ≤ 16) :
    (execute w vm).vm.registers.sp ≤ 16 ∧
    ∀ k, Access.stack k ∈ (execute w vm).trace → k < 16 := by
  unfold execute
  split
  · exact execSys_sp w vm h
  · simpa [continueWith, ChVm.setPc] using h
  · exact execCall_sp w vm h
  · dsimp only; split_ifs <;> simpa [continueWith, ChVm.setPc] using h
  · dsimp only; split_ifs <;> simpa [continueWith, ChVm.setPc] using h
  · dsimp only; split_ifs <;> simpa [continueWith, haltWith, ChVm.setPc] using h
  · simpa [continueWith, ChVm.setV] using h
  · simpa [continueWith, ChVm.setV] using h
  · obtain ⟨h1, h2⟩ := execRr_sp w vm
    rw [h1, h2]
    exact ⟨h, by simp⟩
  · dsimp only; split_ifs <;> simpa [continueWith, haltWith, ChVm.setPc] using h
  · simpa [continueWith, ChVm.setI] using h
  · simpa [continueWith, ChVm.setPc] using h
  · simpa [continueWith] using h
  · obtain ⟨h1, h2⟩ := execDrw_sp w vm
    rw [h1]
    exact ⟨h, fun k hk => absurd hk (h2 k)⟩
  · simpa [continueWith] using h
  · obtain ⟨h1, h2⟩ := execSpec_sp w vm
    rw [h1]
    exact ⟨h, fun k hk => absurd hk (h2 k)⟩
  · simpa [continueWith] using h

/-- One iteration keeps `sp` within 16 and touches stack slots below 16
only. -/
theorem chVmStep_sp (vm : ChVm) (h : vm.registers.sp ≤ 16) :
    (chVmStep vm).vm.registers.sp ≤ 16 ∧
    ∀ k, Access.stack k ∈ (chVmStep vm).trace → k < 16 := by
  by_cases hpc : vm.registers.pc + 2 < 0xFFF
  · rw [chVmStep_of_fetch vm hpc]
    have hexec := execute_sp (fetch vm) (vm.setPc (vm.registers.pc + 2)) h
    refine ⟨hexec.1, ?_⟩
    intro k hk
    simp only [List.mem_cons] at hk
    rcases hk with hk | hk | hk
    · cases hk
    · cases hk
    · exact hexec.2 k hk
  · have hge : vm.registers.pc + 2 ≥ 0xFFF := by omega
    simp [chVmStep, hge, haltWith, h]

/-- A run of any length keeps `sp` within 16 and touches stack slots below
16 only. -/
theorem chVmRun_sp (fuel : Nat) : ∀ vm : ChVm, vm.registers.sp ≤ 16 →
    (chVmRun fuel vm).vm.registers.sp ≤ 16 ∧
    ∀ k, Access.stack k ∈ (chVmRun fuel vm).trace → k < 16 := by
  induction fuel with
  | zero =>
    intro vm h
    simp [chVmRun, continueWith, h]
  | succ fuel ih =>
    intro vm h
    obtain ⟨h1, h2⟩ := chVmStep_sp vm h
    cases hh : (chVmStep vm).halt with
    | some e =>
      rw [chVmRun_halted fuel vm e hh]
      exact ⟨h1, h2⟩
    | none =>
      rw [chVmRun_running fuel vm hh]
      obtain ⟨h3, h4⟩ := ih (chVmStep vm).vm h1
      refine ⟨h3, ?_⟩
      intro k hk
      simp only [List.mem_append] at hk
      rcases hk with hk | hk
      · exact h2 k hk
      · exact h4 k hk

/-- C18: from the startup state of any program, after any number of
iterations `sp` is at most 16 and every stack slot read or written so far
has an index below 16; a CALL with `sp ≥ 16` and a RET with `sp = 0` halt
the loop and leave `sp` as it was. -/
theorem stack_pointer_in_range (program : List Nat) (fuel : Nat) :
    (chVmRun fuel (startVm program)).vm.registers.sp ≤ 16 ∧
    (∀ k, Access.stack k ∈ (chVmRun fuel (startVm program)).trace → k < 16) ∧
    (∀ vm : ChVm, vm.registers.pc + 2 < 0xFFF → (fetch vm).opcode = 2 →
      16 ≤ vm.registers.sp →
      (chVmStep vm).halt = some ChHalt.stackOverflow ∧
      (chVmStep vm).vm.registers.sp = vm.registers.sp ∧
      (∀ k, Access.stack k ∉ (chVmStep vm).trace)) ∧
    (∀ vm : ChVm, vm.registers.pc + 2 < 0xFFF → fetch vm = { instruction := 0x00EE } →
      vm.registers.sp = 0 →
      (chVmStep vm).halt = some ChHalt.stackUnderflow ∧
      (chVmStep vm).vm.registers.sp = vm.registers.sp ∧
      (∀ k, Access.stack k ∉ (chVmStep vm).trace)) := by
  have hstart : (startVm program).registers.sp ≤ 16 := by simp [startVm]
  refine ⟨(chVmRun_sp fuel _ hstart).1, (chVmRun_sp fuel _ hstart).2, ?_, ?_⟩
  · intro vm hpc hop hsp
    rw [call_step_overflow vm hpc hop hsp]
    simp [ChVm.setPc]
  · intro vm hpc hret hsp
    have hop0 : ChInstruction.opcode { instruction := 0x00EE } = 0 := by decide
    have hnnn0 : ChInstruction.nnn { instruction := 0x00EE } = 0x0EE := by decide
    rw [chVmStep_of_fetch vm hpc, hret]
    simp [execute, hop0, execSys, hnnn0, haltWith, ChVm.setPc, hsp]

end CHIP8
